import Mathlib

/-!
Verification of the aproxy proxy lifecycle engine (github.com/ArnabXD/aproxy).

This file gives a shallow embedding of the parts of the Go source that the
checked properties speak about, and proves (or refutes) those properties:

* the database service for proxy records
  (`UpsertProxy`, `BatchUpdateProxyHealth`, `GetHealthyProxies`,
  `CleanupOldProxies` in `internal/database/service.go`),
* the cache-aware checker (`DBChecker.CheckProxiesWithCaching` in
  `pkg/checker/db_checker.go`),
* the pool manager (`DBManager` in `pkg/manager/db_manager.go`),
* the forwarder's request routing and header sanitisation
  (`Server.ServeHTTP`, `sanitizeRequest` in `pkg/proxy/server.go`),
* the configuration structs and the wiring in `cmd/aproxy/main.go`.

Modelling conventions: machine time (`time.Time` / `time.Duration`) is an
integer number of seconds; SQL `DATETIME` strings compare in the same order
as the instants they denote, so order comparisons on the integers are
faithful.  Go maps are lists of pairs with pairwise-distinct keys; the
claims proved here are insensitive to Go's unspecified map iteration
order.  Fallible operations return `Option`; an out-of-range slice index
(a Go panic) is `none`.  Database statement failures are an oracle
`execOk`; a failed statement aborts the transaction and the deferred
rollback leaves the store unchanged, which the embedding renders by
returning `none` together with the untouched input store.
-/

namespace Aproxy

/-- `scraper.Proxy` (src/pkg/scraper/types.go).  The Go field `Type` is
rendered `ptype` because `Type` is reserved in Lean; `LastSeen` is a
timestamp in seconds. -/
structure Proxy where
  host : String
  port : Int
  ptype : String
  country : String
  lastSeen : Int
deriving DecidableEq, Repr

/-- `Proxy.Address()` = `fmt.Sprintf("%s:%d", p.Host, p.Port)`. -/
def Proxy.address (p : Proxy) : String :=
  p.host ++ ":" ++ toString p.port

/-- `database.ProxyStatus` (internal/database/types.go). -/
inductive ProxyStatus where
  | statusUnknown
  | statusHealthy
  | statusUnhealthy
  | statusTimeout
  | statusError
deriving DecidableEq, Repr

/-- `ProxyStatus.String()`. -/
def ProxyStatus.str : ProxyStatus → String
  | .statusHealthy => "healthy"
  | .statusUnhealthy => "unhealthy"
  | .statusTimeout => "timeout"
  | .statusError => "error"
  | .statusUnknown => "unknown"

/-- One row of the `proxies` table (`model.Proxies`; schema in
internal/database/schema.sql).  `status` defaults to `"unknown"`,
`fail_count` to `0`; `first_seen_at` is set at insert. -/
structure Proxies where
  id : Int
  host : String
  port : Int
  proxyType : String
  country : Option String
  anonymity : Option String
  https : Option Bool
  status : String
  responseTimeMs : Option Int
  failCount : Int
  firstSeenAt : Int
  lastCheckedAt : Option Int
  lastHealthyAt : Option Int
deriving DecidableEq, Repr

/-- `host || ':' || port`, the address key used by
`GetProxiesByAddresses` and the checker's maps. -/
def Proxies.address (r : Proxies) : String :=
  r.host ++ ":" ++ toString r.port

/-- `checker.CheckResult` / `database.CheckResult`.  `responseTime` is in
milliseconds; the `Error` field is carried as an optional message. -/
structure CheckResult where
  proxy : Proxy
  status : ProxyStatus
  responseTime : Int
  errMsg : Option String
  checkedAt : Int
deriving DecidableEq, Repr

/-- The persistent store: the `proxies` table as a list of rows.  The
schema's `UNIQUE(host, port)` makes addresses pairwise distinct in any
store the program builds. -/
abbrev Store := List Proxies

/-- The next `AUTOINCREMENT` id: strictly larger than every id in use. -/
def nextId (store : Store) : Int :=
  (store.map (·.id)).foldr max 0 + 1

/-- The `ON_CONFLICT(host, port)` match of `UpsertProxy`. -/
def upsertMatches (p : Proxy) (r : Proxies) : Bool :=
  r.host == p.host && r.port == p.port

/-- `Service.UpsertProxy` (internal/database/service.go).  Inserts host,
port, proxy type, country and `first_seen_at = now`; on conflict updates
ONLY `proxy_type` and `country` ("DO NOT update timestamps - preserve
existing health check data").  Returns the updated store and the row
produced by `RETURNING`. -/
def UpsertProxy (now : Int) (store : Store) (p : Proxy) : Store × Proxies :=
  match store.find? (upsertMatches p) with
  | some r =>
      (store.map (fun q =>
          if upsertMatches p q then { q with proxyType := p.ptype, country := some p.country }
          else q),
       { r with proxyType := p.ptype, country := some p.country })
  | none =>
      let r : Proxies :=
        { id := nextId store, host := p.host, port := p.port, proxyType := p.ptype,
          country := some p.country, anonymity := none, https := none,
          status := "unknown", responseTimeMs := none, failCount := 0,
          firstSeenAt := now, lastCheckedAt := none, lastHealthyAt := none }
      (store ++ [r], r)

/-- One row of `BatchUpdateProxyHealth`: the healthy `UPDATE` zeroes
`fail_count` and stamps both timestamps with the same `now`; the
non-healthy `UPDATE` increments `fail_count` and leaves
`last_healthy_at` alone.  Both write `status` and `response_time_ms`. -/
def applyHealthUpdate (now : Int) (res : CheckResult) (r : Proxies) : Proxies :=
  if res.status = .statusHealthy then
    { r with status := res.status.str, lastCheckedAt := some now,
             responseTimeMs := some res.responseTime, lastHealthyAt := some now,
             failCount := 0 }
  else
    { r with status := res.status.str, lastCheckedAt := some now,
             responseTimeMs := some res.responseTime,
             failCount := r.failCount + 1 }

/-- The sequence of `UPDATE ... WHERE id = ?` statements of one batch. -/
def applyHealthUpdates (now : Int) (updates : List (Int × CheckResult)) (store : Store) : Store :=
  updates.foldl
    (fun st u => st.map (fun r => if r.id = u.1 then applyHealthUpdate now u.2 r else r))
    store

/-- `Service.BatchUpdateProxyHealth`: all updates of the batch run inside
one transaction; `execOk` tells which statements the database accepts.
An empty batch returns immediately.  If every statement succeeds the
transaction commits; otherwise the function returns the error and the
deferred `tx.Rollback()` leaves the store as it was (`none`). -/
def BatchUpdateProxyHealth (execOk : Int → Bool) (now : Int)
    (updates : List (Int × CheckResult)) (store : Store) : Option Store :=
  if updates.isEmpty then some store
  else if updates.all (fun u => execOk u.1) then
    some (applyHealthUpdates now updates store)
  else none

/-- Comparator for `ORDER BY last_healthy_at DESC` (`NULL`s, which SQLite
sorts as smallest, come last in a descending scan). -/
def lastHealthyDescLe (a b : Proxies) : Bool :=
  match a.lastHealthyAt, b.lastHealthyAt with
  | _, none => true
  | none, some _ => false
  | some x, some y => y ≤ x

/-- Insert into a list sorted by `le` (models the SQL sort order). -/
def insertSorted (le : Proxies → Proxies → Bool) (x : Proxies) : List Proxies → List Proxies
  | [] => [x]
  | y :: ys => if le x y then x :: y :: ys else y :: insertSorted le x ys

/-- Stable sort by `le` (the engine's `ORDER BY`). -/
def sortByLe (le : Proxies → Proxies → Bool) (l : List Proxies) : List Proxies :=
  l.foldr (insertSorted le) []

/-- `Service.GetHealthyProxies`: every row with `status = 'healthy'`,
ordered by `last_healthy_at` descending. -/
def GetHealthyProxies (store : Store) : List Proxies :=
  sortByLe lastHealthyDescLe (store.filter (fun r => r.status == "healthy"))

/-- `Service.GetProxiesByAddresses` restricted to a single address: the
row whose `host || ':' || port` equals `addr`, if any. -/
def GetProxyByAddress (store : Store) (addr : String) : Option Proxies :=
  store.find? (fun r => r.address == addr)

/-- `Service.CleanupOldProxies`: `DELETE FROM proxies WHERE
last_healthy_at IS NULL OR last_healthy_at < now - maxAge`.  The
embedding keeps exactly the rows the `DELETE` does not match. -/
def CleanupOldProxies (now maxAge : Int) (store : Store) : Store :=
  store.filter (fun r =>
    match r.lastHealthyAt with
    | none => false
    | some t => decide (now - maxAge ≤ t))

/-- The `switch dbProxy.Status` of `getCachedResults` / `getAllResults`:
unrecognised strings fall through to `StatusUnknown`. -/
def statusOfString (s : String) : ProxyStatus :=
  if s == "healthy" then .statusHealthy
  else if s == "unhealthy" then .statusUnhealthy
  else if s == "timeout" then .statusTimeout
  else if s == "error" then .statusError
  else .statusUnknown

/-- Conversion of a database row back to a `scraper.Proxy` (the checker's
`scraper.Proxy{...}` literals); `lastSeen` is the value the caller
stamps (zero in the cached paths, `time.Now()` in the probing path). -/
def toScraperProxy (lastSeen : Int) (r : Proxies) : Proxy :=
  { host := r.host, port := r.port, ptype := r.proxyType,
    country := r.country.getD "", lastSeen := lastSeen }

/-- One row of `getCachedResults`: a result synthesised from the stored
status with zero-value defaults for missing timestamps and latencies. -/
def cachedResult (r : Proxies) : CheckResult :=
  { proxy := toScraperProxy 0 r, status := statusOfString r.status,
    responseTime := r.responseTimeMs.getD 0, errMsg := none,
    checkedAt := r.lastCheckedAt.getD 0 }

/-- The staleness test of `CheckProxiesWithCaching`: probe when
`last_checked_at` is `NULL` or `Before(cutoff)` with
`cutoff = now - checkInterval`. -/
def needsCheck (cutoff : Int) (r : Proxies) : Bool :=
  match r.lastCheckedAt with
  | none => true
  | some t => decide (t < cutoff)

/-- The `proxyByAddr` map of `CheckProxiesWithCaching`: scraped proxies
keyed by address, a later entry overwriting an earlier one with the same
address. -/
def dedupByAddress : List Proxy → List Proxy
  | [] => []
  | p :: ps =>
      if ps.any (fun q => q.address == p.address) then dedupByAddress ps
      else p :: dedupByAddress ps

/-- A probe of one proxy.  The network is the oracle `probe`, returning
the classification and the latency in milliseconds; `checkedAt` is the
wall clock at the probe. -/
def freshResult (probe : Proxy → ProxyStatus × Int) (now : Int) (r : Proxies) : CheckResult :=
  { proxy := toScraperProxy now r, status := (probe (toScraperProxy now r)).1,
    responseTime := (probe (toScraperProxy now r)).2, errMsg := none, checkedAt := now }

/-- The upsert loop over the scraped proxies absent from the store
(`for _, proxy := range newProxies` in `CheckProxiesWithCaching`),
collecting the rows the upserts return. -/
def upsertNew (now : Int) (store : Store) : List Proxy → Store × List Proxies
  | [] => (store, [])
  | p :: ps =>
      let r := UpsertProxy now store p
      let rest := upsertNew now r.1 ps
      (rest.1, r.2 :: rest.2)

/-- The first half of `CheckProxiesWithCaching`: dedup the scraped list
by address, split it into proxies already in the store and new ones,
upsert the new ones, and collect `dbProxies` (existing rows first, then
the freshly inserted rows).  Returns (store after upserts, dbProxies). -/
def dbProxiesPhase (now : Int) (scraped : List Proxy) (store : Store) : Store × List Proxies :=
  let sd := dedupByAddress scraped
  let exRecs := sd.filterMap (fun p => GetProxyByAddress store p.address)
  let newPs := sd.filter (fun p => (GetProxyByAddress store p.address).isNone)
  let up := upsertNew now store newPs
  (up.1, exRecs ++ up.2)

/-- The records `CheckProxiesWithCaching` schedules for probing: the
stale or never-checked members of `dbProxies`. -/
def scheduledRecs (now interval : Int) (scraped : List Proxy) (store : Store) : List Proxies :=
  ((dbProxiesPhase now scraped store).2).filter (needsCheck (now - interval))

/-- `getAllResults`: per `dbProxies` row, the fresh probe result when one
with the same address exists, else the cached result. -/
def getAllResults (dbProxies : List Proxies) (fresh : List CheckResult) : List CheckResult :=
  dbProxies.map (fun r =>
    match fresh.find? (fun fr => fr.proxy.address == r.address) with
    | some fr => fr
    | none => cachedResult r)

/-- `DBChecker.CheckProxiesWithCaching` on its non-error path: empty
input short-circuits; fresh records are answered from the cache; stale
records are probed and their results written back with
`BatchUpdateProxyHealth` (the chunking at 50 only splits the
transactions; its net effect on the store is `applyHealthUpdates`).
Returns the store after the write-back and the combined result list. -/
def CheckProxiesWithCaching (probe : Proxy → ProxyStatus × Int) (now interval : Int)
    (scraped : List Proxy) (store : Store) : Store × List CheckResult :=
  if scraped.isEmpty then (store, [])
  else
    let phase := dbProxiesPhase now scraped store
    let scheduled := phase.2.filter (needsCheck (now - interval))
    if scheduled.isEmpty then (phase.1, phase.2.map cachedResult)
    else
      let fresh := scheduled.map (freshResult probe now)
      let updates := scheduled.map (fun r => (r.id, freshResult probe now r))
      (applyHealthUpdates now updates phase.1, getAllResults phase.2 fresh)

/-- `checker.FilterHealthyProxies` (src/pkg/checker/checker.go). -/
def FilterHealthyProxies (results : List CheckResult) : List Proxy :=
  (results.filter (fun r => r.status == ProxyStatus.statusHealthy)).map (·.proxy)

/-- The mutable cache of `DBManager`: the rotation vector and the
round-robin cursor (src/pkg/manager/db_manager.go). -/
structure DBManagerState where
  cachedProxies : List Proxy
  currentIndex : Nat
deriving DecidableEq, Repr

/-- `DBManager.GetNextProxy`: error when the cache is empty, else return
the entry at the cursor and advance `currentIndex = (currentIndex + 1) %
len(cachedProxies)`.  An out-of-range cursor would be a Go panic,
rendered `none`. -/
def GetNextProxy (s : DBManagerState) : Option Proxy × DBManagerState :=
  if s.cachedProxies.isEmpty then (none, s)
  else
    match s.cachedProxies[s.currentIndex]? with
    | none => (none, s)
    | some p =>
        (some p, { s with currentIndex := (s.currentIndex + 1) % s.cachedProxies.length })

/-- The state after `k` consecutive `GetNextProxy` calls. -/
def stateAfterNext : Nat → DBManagerState → DBManagerState
  | 0, s => s
  | k + 1, s => stateAfterNext k (GetNextProxy s).2

/-- The value returned by the `(k+1)`-th consecutive `GetNextProxy`. -/
def outputAtNext (k : Nat) (s : DBManagerState) : Option Proxy :=
  (GetNextProxy (stateAfterNext k s)).1

/-- `DBManager.ReportProxyFailure`: drop every cache entry whose
`Address()` equals the failing proxy's; when something was dropped and
the cursor fell off the (still non-empty) cache, reset it to 0. -/
def ReportProxyFailure (p : Proxy) (s : DBManagerState) : DBManagerState :=
  let newProxies := s.cachedProxies.filter (fun q => q.address != p.address)
  if newProxies.length < s.cachedProxies.length then
    { cachedProxies := newProxies,
      currentIndex :=
        if s.currentIndex ≥ newProxies.length ∧ 0 < newProxies.length then 0
        else s.currentIndex }
  else s

/-- The row conversion of `DBChecker.GetHealthyProxiesFromDB` (`LastSeen`
is taken from `last_healthy_at` when present). -/
def dbToProxyH (r : Proxies) : Proxy :=
  { host := r.host, port := r.port, ptype := r.proxyType,
    country := r.country.getD "", lastSeen := r.lastHealthyAt.getD 0 }

/-- `DBChecker.GetHealthyProxiesFromDB`. -/
def GetHealthyProxiesFromDB (store : Store) : List Proxy :=
  (GetHealthyProxies store).map dbToProxyH

/-- `DBManager.loadHealthyProxies`: replace the cache with the healthy
rows of the store and reset the cursor. -/
def loadHealthyProxies (store : Store) : DBManagerState :=
  { cachedProxies := GetHealthyProxiesFromDB store, currentIndex := 0 }

/-- The `24 * time.Hour` literal of db_manager.go line 160, in seconds. -/
def hours24 : Int := 24 * 3600

/-- `DBManager.RefreshProxies`: run the cached check over the scraped
list, swap the cache with the healthy results (cursor 0); when the cache
was empty before and is non-empty now, reload the cache from the store;
finally fire `CleanupOldProxies` with the hard-coded 24-hour age over
the post-check store.  Returns the final store and cache state. -/
def RefreshProxies (probe : Proxy → ProxyStatus × Int) (now interval : Int)
    (scraped : List Proxy) (store : Store) (s : DBManagerState) :
    Store × DBManagerState :=
  let out := CheckProxiesWithCaching probe now interval scraped store
  let healthyProxies := FilterHealthyProxies out.2
  let oldCount := s.cachedProxies.length
  let s2 :=
    if oldCount = 0 ∧ 0 < healthyProxies.length then loadHealthyProxies out.1
    else ({ cachedProxies := healthyProxies, currentIndex := 0 } : DBManagerState)
  (CleanupOldProxies now hours24 out.1, s2)

/-- The `host:port` uniqueness discipline of the cache and the store:
pairwise distinct addresses. -/
def addrNodup (l : List Proxies) : Prop :=
  (l.map Proxies.address).Nodup

/-- The cursor invariant of the pool manager: on a non-empty cache the
round-robin cursor is in range. -/
def cursorInv (s : DBManagerState) : Prop :=
  s.cachedProxies ≠ [] → s.currentIndex < s.cachedProxies.length

/-- HTTP headers as Go's `http.Header`: names (in canonical MIME form,
as `Set`/`Del`/`Get` canonicalise every key through the same function)
mapped to value lists. -/
abbrev Headers := List (String × List String)

/-- `http.Header.Del`. -/
def hdel (k : String) (h : Headers) : Headers :=
  h.filter (fun e => e.1 != k)

/-- `http.Header.Set`: replace any existing values of `k` by the single
value `v`. -/
def hset (k v : String) (h : Headers) : Headers :=
  hdel k h ++ [(k, [v])]

/-- The value list stored under a name, if any. -/
def hlookup (k : String) (h : Headers) : Option (List String) :=
  (h.find? (fun e => e.1 == k)).map (·.2)

/-- `Server.sanitizeRequest` (src/pkg/proxy/server.go:508-519): delete
every name in `StripHeaders`, then `Set` every `AddHeaders` pair, then
delete `Proxy-Connection` and `Proxy-Authorization`. -/
def sanitizeRequest (strip : List String) (add : List (String × String)) (h : Headers) : Headers :=
  hdel "Proxy-Authorization" (hdel "Proxy-Connection"
    (add.foldl (fun a kv => hset kv.1 kv.2 a)
      (strip.foldl (fun a k => hdel k a) h)))

/-- An HTTP request as `Server.ServeHTTP` inspects it: method, URL
path/scheme/host, and headers. -/
structure Request where
  method : String
  urlPath : String
  urlScheme : String
  urlHost : String
  headers : Headers
deriving DecidableEq, Repr

/-- `proxy.Config` (src/pkg/proxy/server.go:33-43).  It has NO auth-token
field; durations in seconds. -/
structure ProxyServerConfig where
  listenAddr : String
  readTimeout : Int
  writeTimeout : Int
  idleTimeout : Int
  maxConnections : Int
  enableHTTPS : Bool
  maxRetries : Int
  stripHeaders : List String
  addHeaders : List (String × String)
deriving DecidableEq, Repr

/-- `config.ServerConfig` (internal/config/config.go): the loaded
configuration, including `auth_token`. -/
structure ServerConfig where
  listenAddr : String
  readTimeout : Int
  writeTimeout : Int
  idleTimeout : Int
  maxConnections : Int
  enableHTTPS : Bool
  maxRetries : Int
  stripHeaders : List String
  addHeaders : List (String × String)
  authToken : String
deriving DecidableEq, Repr

/-- `config.DatabaseConfig` (internal/config/config.go): store path,
`max_age`, `cleanup_interval`. -/
structure DatabaseConfig where
  path : String
  maxAge : Int
  cleanupInterval : Int
deriving DecidableEq, Repr

/-- The `proxy.Config{...}` literal of cmd/aproxy/main.go lines 105-115:
every field is copied from the loaded server configuration except
`AuthToken`, which has no counterpart and is dropped. -/
def buildProxyConfig (c : ServerConfig) : ProxyServerConfig :=
  { listenAddr := c.listenAddr, readTimeout := c.readTimeout,
    writeTimeout := c.writeTimeout, idleTimeout := c.idleTimeout,
    maxConnections := c.maxConnections, enableHTTPS := c.enableHTTPS,
    maxRetries := c.maxRetries, stripHeaders := c.stripHeaders,
    addHeaders := c.addHeaders }

/-- Where `ServeHTTP` routes a request. -/
inductive Routed where
  | toStats
  | toHealth
  | invalidRequest
  | toProxyHandler
deriving DecidableEq, Repr

/-- `Server.isValidProxyRequest`: CONNECT, or an absolute URL. -/
def isValidProxyRequest (r : Request) : Bool :=
  r.method == "CONNECT" || (r.urlScheme != "" && r.urlHost != "")

/-- `Server.ServeHTTP` (src/pkg/proxy/server.go:111-137): `GET /stats`
and `GET /health` are handled in place, invalid proxy requests get 400,
everything else goes to the proxy handler.  The function inspects only
the method, path, scheme and host: no header (in particular no
`Proxy-Authorization`) and no configuration field is consulted. -/
def ServeHTTP (r : Request) : Routed :=
  if r.method == "GET" && r.urlPath == "/stats" then .toStats
  else if r.method == "GET" && r.urlPath == "/health" then .toHealth
  else if !(isValidProxyRequest r) then .invalidRequest
  else .toProxyHandler

/-- The status code each route writes: `handleStats` answers 200 to any
GET; `handleHealth` answers 503 with no healthy proxy and 200 otherwise;
invalid requests get 400; the proxy handler's status comes from the
forwarding attempt (`upstreamStatus`). -/
def routedStatus (healthyCount : Int) (upstreamStatus : Nat) : Routed → Nat
  | .toStats => 200
  | .toHealth => if healthyCount = 0 then 503 else 200
  | .invalidRequest => 400
  | .toProxyHandler => upstreamStatus

/-- The `mainRefresh` wiring: `NewDBManagerWithConfig` (called from
cmd/aproxy/main.go line 100) receives scraper and checker settings but
no `DatabaseConfig`; the manager's refresh therefore cannot depend on
`cfg.maxAge` and cleans up with the literal 24 hours. -/
def mainRefresh (cfg : DatabaseConfig) (probe : Proxy → ProxyStatus × Int)
    (now interval : Int) (scraped : List Proxy) (store : Store)
    (s : DBManagerState) : Store × DBManagerState :=
  RefreshProxies probe now interval scraped store s

/-! Concrete inputs used by witnesses and counterexamples. -/

/-- A sample upstream proxy. -/
def pA : Proxy := { host := "1.2.3.4", port := 8080, ptype := "http", country := "US", lastSeen := 0 }

/-- A second sample upstream proxy with a distinct address. -/
def pB : Proxy := { host := "5.6.7.8", port := 3128, ptype := "socks5", country := "", lastSeen := 0 }

/-- A third sample upstream proxy with a distinct address. -/
def pC : Proxy := { host := "9.9.9.9", port := 80, ptype := "https", country := "DE", lastSeen := 0 }

/-- A cache state holding `pA` and `pB` with the cursor at 0. -/
def sAB : DBManagerState := { cachedProxies := [pA, pB], currentIndex := 0 }

/-- A degenerate cache state holding the same proxy twice. -/
def sDup : DBManagerState := { cachedProxies := [pA, pA], currentIndex := 0 }

/-- A stored row for `pA` that is currently healthy. -/
def recA : Proxies :=
  { id := 1, host := "1.2.3.4", port := 8080, proxyType := "http", country := some "US",
    anonymity := none, https := none, status := "healthy", responseTimeMs := some 120,
    failCount := 0, firstSeenAt := 10, lastCheckedAt := some 95, lastHealthyAt := some 95 }

/-- A stored row for `pB` that was last checked long ago. -/
def recB : Proxies :=
  { id := 2, host := "5.6.7.8", port := 3128, proxyType := "socks5", country := none,
    anonymity := none, https := none, status := "timeout", responseTimeMs := none,
    failCount := 3, firstSeenAt := 5, lastCheckedAt := some 20, lastHealthyAt := none }

/-- A probe oracle that reports every proxy healthy in 50 ms. -/
def probeAllHealthy : Proxy → ProxyStatus × Int := fun _ => (ProxyStatus.statusHealthy, 50)

/-- A healthy probe result for `pA`. -/
def resH : CheckResult :=
  { proxy := pA, status := .statusHealthy, responseTime := 42, errMsg := none, checkedAt := 100 }

/-- A timed-out probe result for `pB`. -/
def resT : CheckResult :=
  { proxy := pB, status := .statusTimeout, responseTime := 0, errMsg := some "timeout",
    checkedAt := 100 }

/-! Helper lemmas about the pool manager's rotation. -/

/-- On an in-range cursor, `GetNextProxy` returns the entry at the cursor
and advances the cursor modularly. -/
lemma GetNextProxy_eq (s : DBManagerState) (h : s.currentIndex < s.cachedProxies.length) :
    GetNextProxy s =
      (some (s.cachedProxies.get ⟨s.currentIndex, h⟩),
        { cachedProxies := s.cachedProxies,
          currentIndex := (s.currentIndex + 1) % s.cachedProxies.length }) := by
  have hne : s.cachedProxies.isEmpty = false := by
    rcases hl : s.cachedProxies with _ | ⟨a, l⟩
    · rw [hl] at h; simp at h
    · rfl
  simp [GetNextProxy, hne, List.getElem?_eq_getElem h]

/-- The cache is stable under `GetNextProxy` iteration and the cursor
advances by `k` modulo the length. -/
lemma stateAfterNext_eq (k : Nat) : ∀ (s : DBManagerState),
    s.currentIndex < s.cachedProxies.length →
    stateAfterNext k s =
      { cachedProxies := s.cachedProxies,
        currentIndex := (s.currentIndex + k) % s.cachedProxies.length } := by
  induction k with
  | zero =>
      intro s h
      cases s with
      | mk cp ci => simp [stateAfterNext, Nat.mod_eq_of_lt h]
  | succ k ih =>
      intro s h
      have hpos : 0 < s.cachedProxies.length := Nat.zero_lt_of_lt h
      have hstep : (GetNextProxy s).2 =
          { cachedProxies := s.cachedProxies,
            currentIndex := (s.currentIndex + 1) % s.cachedProxies.length } := by
        rw [GetNextProxy_eq s h]
      have h2 : ((GetNextProxy s).2).currentIndex < ((GetNextProxy s).2).cachedProxies.length := by
        rw [hstep]; exact Nat.mod_lt _ hpos
      have := ih (GetNextProxy s).2 h2
      rw [hstep] at this
      simp only [stateAfterNext, this, hstep]
      congr 1
      simp [Nat.mod_add_mod]
      congr 1
      omega

/-- The value of the `(k+1)`-th call on a stable cache. -/
lemma outputAtNext_eq (s : DBManagerState) (h : s.currentIndex < s.cachedProxies.length)
    (k : Nat) :
    outputAtNext k s =
      s.cachedProxies[(s.currentIndex + k) % s.cachedProxies.length]? := by
  have hs := stateAfterNext_eq k s h
  have hidx : (s.currentIndex + k) % s.cachedProxies.length < s.cachedProxies.length :=
    Nat.mod_lt _ (Nat.zero_lt_of_lt h)
  have h2 : (stateAfterNext k s).currentIndex < (stateAfterNext k s).cachedProxies.length := by
    rw [hs]; exact hidx
  clear h2
  unfold outputAtNext
  rw [hs]
  rw [GetNextProxy_eq _ hidx]
  rw [List.getElem?_eq_getElem hidx]
  rfl

/-- C7.  Over a cache not otherwise modified, `GetNextProxy` keeps the
cache intact and advances `cursor = (cursor + 1) mod n` at each call (so
after `k` calls the cursor is `(cursor + k) mod n`); the first `n` calls
return `n` pairwise distinct entries; and whenever `n ≥ 2` two
consecutive calls return distinct entries. -/
theorem c7_round_robin (s : DBManagerState)
    (hcur : s.currentIndex < s.cachedProxies.length)
    (hnd : s.cachedProxies.Nodup) :
    (∀ k, (stateAfterNext k s).cachedProxies = s.cachedProxies ∧
      (stateAfterNext k s).currentIndex =
        (s.currentIndex + k) % s.cachedProxies.length) ∧
    (∀ j k, j < s.cachedProxies.length → k < s.cachedProxies.length → j ≠ k →
      outputAtNext j s ≠ outputAtNext k s) ∧
    (2 ≤ s.cachedProxies.length → ∀ k, outputAtNext k s ≠ outputAtNext (k + 1) s) := by
  have hpos : 0 < s.cachedProxies.length := Nat.zero_lt_of_lt hcur
  refine ⟨?_, ?_, ?_⟩
  · intro k
    rw [stateAfterNext_eq k s hcur]
    exact ⟨rfl, rfl⟩
  · intro j k hj hk hjk heq
    rw [outputAtNext_eq s hcur j, outputAtNext_eq s hcur k] at heq
    have hi1 : (s.currentIndex + j) % s.cachedProxies.length < s.cachedProxies.length :=
      Nat.mod_lt _ hpos
    have hi2 : (s.currentIndex + k) % s.cachedProxies.length < s.cachedProxies.length :=
      Nat.mod_lt _ hpos
    rw [List.getElem?_eq_getElem hi1, List.getElem?_eq_getElem hi2] at heq
    have hget := Option.some.inj heq
    have hidx : ((s.currentIndex + j) % s.cachedProxies.length : Nat) =
        (s.currentIndex + k) % s.cachedProxies.length :=
      (List.Nodup.getElem_inj_iff hnd).mp hget
    have hmod : Nat.ModEq s.cachedProxies.length (s.currentIndex + j) (s.currentIndex + k) :=
      hidx
    have hjkmod : Nat.ModEq s.cachedProxies.length j k :=
      Nat.ModEq.add_left_cancel' s.currentIndex hmod
    have : j % s.cachedProxies.length = k % s.cachedProxies.length := hjkmod
    rw [Nat.mod_eq_of_lt hj, Nat.mod_eq_of_lt hk] at this
    exact hjk this
  · intro h2 k heq
    rw [outputAtNext_eq s hcur k, outputAtNext_eq s hcur (k + 1)] at heq
    have hi1 : (s.currentIndex + k) % s.cachedProxies.length < s.cachedProxies.length :=
      Nat.mod_lt _ hpos
    have hi2 : (s.currentIndex + (k + 1)) % s.cachedProxies.length < s.cachedProxies.length :=
      Nat.mod_lt _ hpos
    rw [List.getElem?_eq_getElem hi1, List.getElem?_eq_getElem hi2] at heq
    have hget := Option.some.inj heq
    have hidx : ((s.currentIndex + k) % s.cachedProxies.length : Nat) =
        (s.currentIndex + (k + 1)) % s.cachedProxies.length :=
      (List.Nodup.getElem_inj_iff hnd).mp hget
    have hmod : Nat.ModEq s.cachedProxies.length (s.currentIndex + k)
        (s.currentIndex + (k + 1)) := hidx
    have hcancel : Nat.ModEq s.cachedProxies.length 0 1 := by
      have h0 : s.currentIndex + k + 0 = s.currentIndex + k := by omega
      have h1 : s.currentIndex + k + 1 = s.currentIndex + (k + 1) := by omega
      apply Nat.ModEq.add_left_cancel' (s.currentIndex + k)
      rw [h0, h1]
      exact hmod
    have hdvd : s.cachedProxies.length ∣ 1 := (Nat.modEq_iff_dvd' (by omega)).mp hcancel
    have := Nat.le_of_dvd (by omega) hdvd
    omega

/-- Witness for C7 at a concrete two-entry cache: the first two calls
return distinct entries. -/
theorem c7_round_robin_witness : outputAtNext 0 sAB ≠ outputAtNext 1 sAB :=
  (c7_round_robin sAB (by decide) (by decide)).2.1 0 1 (by decide) (by decide) (by decide)

/-- Counterexample to C8 as stated: with the same proxy cached twice
(`report_failure` removes every entry with the matching address), an
entry with `pA`'s address is in the cache, yet the size drops from 2 to
0, not by exactly 1. -/
theorem c8_counterexample :
    (∃ q ∈ sDup.cachedProxies, q.address = pA.address) ∧
    sDup.cachedProxies.length = 2 ∧
    (ReportProxyFailure pA sDup).cachedProxies.length = 0 := by
  decide

/-- C8 (amended).  `report_failure(p)` removes every cache entry whose
`host:port` address equals `p`'s, so the size drops by exactly the
number of matching entries — by exactly 1 when there is exactly one
matching entry and by 0 (state unchanged) when there is none — and if
the removal leaves the cursor out of range while the cache is still
non-empty, the cursor is reset to 0 (an in-range cursor is kept). -/
theorem c8_report_failure (p : Proxy) (s : DBManagerState) :
    ((ReportProxyFailure p s).cachedProxies.length +
        (s.cachedProxies.filter (fun q => q.address == p.address)).length =
      s.cachedProxies.length) ∧
    ((s.cachedProxies.filter (fun q => q.address == p.address)).length = 0 →
      ReportProxyFailure p s = s) ∧
    ((s.cachedProxies.filter (fun q => q.address == p.address)).length = 1 →
      (ReportProxyFailure p s).cachedProxies.length + 1 = s.cachedProxies.length) ∧
    (0 < (s.cachedProxies.filter (fun q => q.address != p.address)).length →
      (s.cachedProxies.filter (fun q => q.address != p.address)).length ≤ s.currentIndex →
      (s.cachedProxies.filter (fun q => q.address != p.address)).length <
        s.cachedProxies.length →
      (ReportProxyFailure p s).currentIndex = 0) ∧
    (s.currentIndex < (s.cachedProxies.filter (fun q => q.address != p.address)).length →
      (ReportProxyFailure p s).currentIndex = s.currentIndex) := by
  have hperm := List.filter_append_perm (fun q => q.address == p.address) s.cachedProxies
  have hlen : (s.cachedProxies.filter (fun q => q.address == p.address)).length +
      (s.cachedProxies.filter (fun q => q.address != p.address)).length =
      s.cachedProxies.length := by
    have := hperm.length_eq
    simpa [List.length_append, bne] using this
  by_cases hlt : (s.cachedProxies.filter (fun q => q.address != p.address)).length <
      s.cachedProxies.length
  · have hrep : ReportProxyFailure p s =
        { cachedProxies := s.cachedProxies.filter (fun q => q.address != p.address),
          currentIndex :=
            if s.currentIndex ≥ (s.cachedProxies.filter (fun q => q.address != p.address)).length ∧
                0 < (s.cachedProxies.filter (fun q => q.address != p.address)).length then 0
            else s.currentIndex } := by
      simp [ReportProxyFailure, hlt]
    refine ⟨?_, ?_, ?_, ?_, ?_⟩
    · rw [hrep]; dsimp only; omega
    · intro h0; omega
    · intro h1; rw [hrep]; dsimp only; omega
    · intro hpos hge _
      rw [hrep]
      dsimp only
      rw [if_pos (And.intro hge hpos)]
    · intro hin
      rw [hrep]
      dsimp only
      rw [if_neg]
      intro hand
      rcases hand with ⟨hge, -⟩
      omega
  · have heq : (s.cachedProxies.filter (fun q => q.address != p.address)).length =
        s.cachedProxies.length := by
      have := List.length_filter_le (fun q => q.address != p.address) s.cachedProxies
      omega
    have hrep : ReportProxyFailure p s = s := by
      simp [ReportProxyFailure, hlt]
    refine ⟨?_, ?_, ?_, ?_, ?_⟩
    · rw [hrep]; omega
    · intro _; exact hrep
    · intro h1; omega
    · intro _ _ hcontra; omega
    · intro _; rw [hrep]

/-- Witness for C8 (amended) at a concrete cache: removing `pA` from the
two-entry cache `sAB` (one matching entry) shrinks it by exactly 1. -/
theorem c8_report_failure_witness :
    (ReportProxyFailure pA sAB).cachedProxies.length + 1 = sAB.cachedProxies.length :=
  (c8_report_failure pA sAB).2.2.1 (by decide)

/-- C9.  Every cache-mutating manager operation preserves the cursor
invariant `cache ≠ [] → cursor < length cache`; in particular
`GetNextProxy` on a non-empty cache satisfying the invariant never
indexes out of bounds (it returns an entry). -/
theorem c9_cursor_in_range :
    (∀ s, cursorInv s → cursorInv (GetNextProxy s).2) ∧
    (∀ s, s.cachedProxies ≠ [] → cursorInv s → (GetNextProxy s).1.isSome = true) ∧
    (∀ p s, cursorInv s → cursorInv (ReportProxyFailure p s)) ∧
    (∀ store, cursorInv (loadHealthyProxies store)) ∧
    (∀ probe now interval scraped store s,
      cursorInv (RefreshProxies probe now interval scraped store s).2) := by
  refine ⟨?_, ?_, ?_, ?_, ?_⟩
  · intro s hinv
    by_cases hne : s.cachedProxies = []
    · have hemp : s.cachedProxies.isEmpty = true := by simp [hne]
      have h2 : (GetNextProxy s).2 = s := by simp [GetNextProxy, hemp]
      rw [h2]; exact hinv
    · have hcur := hinv hne
      rw [GetNextProxy_eq s hcur]
      intro _
      exact Nat.mod_lt _ (Nat.zero_lt_of_lt hcur)
  · intro s hne hinv
    have hcur := hinv hne
    rw [GetNextProxy_eq s hcur]
    rfl
  · intro p s hinv
    by_cases hlt : (s.cachedProxies.filter (fun q => q.address != p.address)).length <
        s.cachedProxies.length
    · have hrep : ReportProxyFailure p s =
          { cachedProxies := s.cachedProxies.filter (fun q => q.address != p.address),
            currentIndex :=
              if s.currentIndex ≥ (s.cachedProxies.filter (fun q => q.address != p.address)).length ∧
                  0 < (s.cachedProxies.filter (fun q => q.address != p.address)).length then 0
              else s.currentIndex } := by
        simp [ReportProxyFailure, hlt]
      rw [hrep]
      intro hne
      dsimp only at hne ⊢
      have hpos : 0 < (s.cachedProxies.filter (fun q => q.address != p.address)).length :=
        List.length_pos.mpr hne
      by_cases hge : s.currentIndex ≥
          (s.cachedProxies.filter (fun q => q.address != p.address)).length
      · rw [if_pos (And.intro hge hpos)]; exact hpos
      · rw [if_neg (fun hand => hge hand.1)]
        exact Nat.lt_of_not_le hge
    · have hrep : ReportProxyFailure p s = s := by simp [ReportProxyFailure, hlt]
      rw [hrep]; exact hinv
  · intro store
    intro hne
    exact List.length_pos.mpr hne
  · intro probe now interval scraped store s
    have hr : (RefreshProxies probe now interval scraped store s).2 =
        (if s.cachedProxies.length = 0 ∧
            0 < (FilterHealthyProxies
              (CheckProxiesWithCaching probe now interval scraped store).2).length then
          loadHealthyProxies (CheckProxiesWithCaching probe now interval scraped store).1
        else
          ({ cachedProxies :=
              FilterHealthyProxies (CheckProxiesWithCaching probe now interval scraped store).2,
             currentIndex := 0 } : DBManagerState)) := rfl
    rw [hr]
    by_cases hcond : s.cachedProxies.length = 0 ∧
        0 < (FilterHealthyProxies
          (CheckProxiesWithCaching probe now interval scraped store).2).length
    · rw [if_pos hcond]
      intro hne
      exact List.length_pos.mpr hne
    · rw [if_neg hcond]
      intro hne
      exact List.length_pos.mpr hne

/-- Witness for C9 at a concrete state: the invariant-satisfying cache
`sAB` yields a proxy from `GetNextProxy`. -/
theorem c9_cursor_in_range_witness : (GetNextProxy sAB).1.isSome = true :=
  c9_cursor_in_range.2.1 sAB (by decide) (fun _ => by decide)

/-! Helper lemmas about header maps. -/

/-- Looking up a cons cell. -/
lemma hlookup_cons (k : String) (e : String × List String) (t : Headers) :
    hlookup k (e :: t) = if e.1 == k then some e.2 else hlookup k t := by
  by_cases he : (e.1 == k) = true
  · simp [hlookup, List.find?_cons_of_pos _ he, he]
  · simp [hlookup, List.find?_cons_of_neg _ he, he]

/-- Deleting from a cons cell. -/
lemma hdel_cons (k2 : String) (e : String × List String) (t : Headers) :
    hdel k2 (e :: t) = if e.1 != k2 then e :: hdel k2 t else hdel k2 t := by
  simp [hdel, List.filter_cons]

/-- After `Del k` the name `k` resolves to nothing. -/
lemma find_hdel_self (k : String) (h : Headers) :
    (hdel k h).find? (fun e => e.1 == k) = none := by
  rw [List.find?_eq_none]
  intro e he
  have := List.of_mem_filter he
  simpa using this

/-- After `Del k` the name `k` resolves to nothing. -/
lemma hlookup_hdel_self (k : String) (h : Headers) : hlookup k (hdel k h) = none := by
  simp [hlookup, find_hdel_self]

/-- `Del` of another name does not change a lookup. -/
lemma hlookup_hdel_ne {k k2 : String} (hne : k ≠ k2) (h : Headers) :
    hlookup k (hdel k2 h) = hlookup k h := by
  induction h with
  | nil => rfl
  | cons e t ih =>
      rw [hdel_cons, hlookup_cons]
      by_cases h1 : e.1 = k
      · have hb : (e.1 != k2) = true := by
          rw [bne_iff_ne, h1]
          exact hne
        rw [if_pos hb, hlookup_cons]
        simp [h1]
      · by_cases h2 : e.1 = k2
        · have hb : (e.1 != k2) = false := by simp [h2]
          rw [if_neg (by simp [hb]), ih]
          simp [h1]
        · have hb : (e.1 != k2) = true := by simp [h2]
          rw [if_pos hb, hlookup_cons]
          rw [if_neg (by simpa using h1), if_neg (by simpa using h1), ih]

/-- `Set k v` makes `k` resolve to exactly `[v]`. -/
lemma hlookup_hset_self (k v : String) (h : Headers) :
    hlookup k (hset k v h) = some [v] := by
  unfold hset hlookup
  rw [List.find?_append, find_hdel_self]
  simp

/-- `Set` of another name does not change a lookup. -/
lemma hlookup_hset_ne {k k2 : String} (hne : k ≠ k2) (v : String) (h : Headers) :
    hlookup k (hset k2 v h) = hlookup k h := by
  unfold hset
  unfold hlookup
  rw [List.find?_append]
  have hk2k : ¬ (((k2, [v]) : String × List String).1 == k) = true := by
    intro hc
    exact hne (eq_of_beq hc).symm
  have hsing : ([(k2, [v])] : Headers).find? (fun e => e.1 == k) = none := by
    rw [List.find?_cons_of_neg (p := fun (e : String × List String) => e.1 == k) _ hk2k]
    rfl
  rw [hsing]
  have hd : hlookup k (hdel k2 h) = hlookup k h := hlookup_hdel_ne hne h
  simpa [hlookup] using hd

/-- A name absent from a header map stays absent through any sequence of
`Del`s. -/
lemma hlookup_stripFold_of_none {k : String} (strip : List String) (h : Headers)
    (h0 : hlookup k h = none) :
    hlookup k (strip.foldl (fun a k2 => hdel k2 a) h) = none := by
  induction strip generalizing h with
  | nil => exact h0
  | cons x xs ih =>
      simp only [List.foldl_cons]
      apply ih
      by_cases hx : k = x
      · subst hx; exact hlookup_hdel_self k h
      · rw [hlookup_hdel_ne hx]; exact h0

/-- Folding the `StripHeaders` deletes removes every listed name. -/
lemma hlookup_stripFold_mem {k : String} (strip : List String) (h : Headers)
    (hk : k ∈ strip) :
    hlookup k (strip.foldl (fun a k2 => hdel k2 a) h) = none := by
  induction strip generalizing h with
  | nil => cases hk
  | cons x xs ih =>
      simp only [List.foldl_cons]
      rcases List.mem_cons.mp hk with hkx | hkxs
      · subst hkx
        exact hlookup_stripFold_of_none xs (hdel k h) (hlookup_hdel_self k h)
      · exact ih (hdel x h) hkxs

/-- Folding the `AddHeaders` sets leaves unrelated names unchanged. -/
lemma hlookup_addFold_not_mem {k : String} (add : List (String × String)) (h : Headers)
    (hk : k ∉ add.map Prod.fst) :
    hlookup k (add.foldl (fun a kv => hset kv.1 kv.2 a) h) = hlookup k h := by
  induction add generalizing h with
  | nil => rfl
  | cons x xs ih =>
      simp only [List.foldl_cons]
      have hk1 : k ∉ xs.map Prod.fst := by
        intro hc; exact hk (by simp [hc])
      have hkx : k ≠ x.1 := by
        intro hc; exact hk (by simp [hc])
      rw [ih (hset x.1 x.2 h) hk1, hlookup_hset_ne hkx]

/-- Folding the `AddHeaders` sets gives each distinct-keyed pair exactly
its configured value. -/
lemma hlookup_addFold_mem {add : List (String × String)} {kv : String × String}
    (hnd : (add.map Prod.fst).Nodup) (hkv : kv ∈ add) (h : Headers) :
    hlookup kv.1 (add.foldl (fun a kv2 => hset kv2.1 kv2.2 a) h) = some [kv.2] := by
  induction add generalizing h with
  | nil => cases hkv
  | cons x xs ih =>
      simp only [List.foldl_cons]
      rcases List.mem_cons.mp hkv with hkx | hkxs
      · subst hkx
        have hx1 : kv.1 ∉ xs.map Prod.fst := by
          have := hnd
          simp only [List.map_cons, List.nodup_cons] at this
          exact this.1
        rw [hlookup_addFold_not_mem xs (hset kv.1 kv.2 h) hx1]
        exact hlookup_hset_self kv.1 kv.2 h
      · have hnd2 : (xs.map Prod.fst).Nodup := by
          simp only [List.map_cons, List.nodup_cons] at hnd
          exact hnd.2
        exact ih hnd2 hkxs (hset x.1 x.2 h)

/-- C1 (divergence theorem).  The source never enforces authentication:
the `proxy.Config` literal in main.go drops `AuthToken` (the server's
config struct has no such field), `ServeHTTP`'s routing is independent
of the request headers (so of `Proxy-Authorization`), and a
`GET /stats` request carrying no credentials is routed to the stats
handler, which answers 200 — never 407. -/
theorem c1_auth_never_enforced :
    (∀ (c : ServerConfig) (t : String),
      buildProxyConfig { c with authToken := t } = buildProxyConfig c) ∧
    (∀ (r : Request) (hs : Headers),
      ServeHTTP { r with headers := hs } = ServeHTTP r) ∧
    ServeHTTP { method := "GET", urlPath := "/stats", urlScheme := "",
                urlHost := "", headers := [] } = Routed.toStats ∧
    (∀ (healthyCount : Int) (upstreamStatus : Nat),
      routedStatus healthyCount upstreamStatus Routed.toStats = 200) := by
  refine ⟨?_, ?_, ?_, ?_⟩
  · intro c t; rfl
  · intro r hs; rfl
  · rfl
  · intro healthyCount upstreamStatus; rfl

/-- Counterexample to C2 as stated: with `add_headers` naming
`Proxy-Connection`, the sanitised request does NOT carry that header
with its configured value — the trailing deletes win. -/
theorem c2_counterexample :
    hlookup "Proxy-Connection"
        (sanitizeRequest [] [("Proxy-Connection", "keep-alive")] []) ≠
      some ["keep-alive"] := by
  decide

/-- C2 (amended).  `sanitizeRequest` strips first, then sets
`add_headers`, then deletes `Proxy-Connection` and
`Proxy-Authorization`.  Hence the forwarded request carries no header
named in `strip_headers` unless `add_headers` re-adds it, never carries
`Proxy-Connection` or `Proxy-Authorization` (even when `add_headers`
names them), and carries every other `add_headers` entry with exactly
its configured value. -/
theorem c2_sanitize_request (strip : List String) (add : List (String × String))
    (h : Headers) (hnd : (add.map Prod.fst).Nodup) :
    (∀ k ∈ strip, k ∉ add.map Prod.fst →
      hlookup k (sanitizeRequest strip add h) = none) ∧
    hlookup "Proxy-Connection" (sanitizeRequest strip add h) = none ∧
    hlookup "Proxy-Authorization" (sanitizeRequest strip add h) = none ∧
    (∀ kv ∈ add, kv.1 ≠ "Proxy-Connection" → kv.1 ≠ "Proxy-Authorization" →
      hlookup kv.1 (sanitizeRequest strip add h) = some [kv.2]) := by
  unfold sanitizeRequest
  refine ⟨?_, ?_, ?_, ?_⟩
  · intro k hks hka
    by_cases hpa : k = "Proxy-Authorization"
    · subst hpa; exact hlookup_hdel_self _ _
    · rw [hlookup_hdel_ne hpa]
      by_cases hpc : k = "Proxy-Connection"
      · subst hpc; exact hlookup_hdel_self _ _
      · rw [hlookup_hdel_ne hpc, hlookup_addFold_not_mem add _ hka]
        exact hlookup_stripFold_mem strip h hks
  · rw [hlookup_hdel_ne (by decide)]
    exact hlookup_hdel_self _ _
  · exact hlookup_hdel_self _ _
  · intro kv hkv hpc hpa
    rw [hlookup_hdel_ne hpa, hlookup_hdel_ne hpc]
    exact hlookup_addFold_mem hnd hkv _

/-- Witness for C2 (amended) at a concrete configuration: stripping
`X-Forwarded-For` and adding a user agent behaves as stated. -/
theorem c2_sanitize_request_witness :
    hlookup "User-Agent"
        (sanitizeRequest ["X-Forwarded-For"] [("User-Agent", "UA1")]
          [("X-Forwarded-For", ["1.1.1.1"])]) = some ["UA1"] :=
  (c2_sanitize_request ["X-Forwarded-For"] [("User-Agent", "UA1")]
      [("X-Forwarded-For", ["1.1.1.1"])] (by decide)).2.2.2
    ("User-Agent", "UA1") (by decide) (by decide) (by decide)

/-- C3.  Upserting a scraped proxy that conflicts with an existing row
leaves every row's id, host, port, anonymity, https, status,
response_time_ms, fail_count, first_seen_at, last_checked_at and
last_healthy_at unchanged; a row is either untouched or has exactly its
proxy_type and country refreshed to the scraped values. -/
theorem c3_upsert_preserves_health (now : Int) (p : Proxy) (store : Store)
    (hconf : (store.find? (upsertMatches p)).isSome = true) :
    (UpsertProxy now store p).1.length = store.length ∧
    ∀ (i : Nat) (h1 : i < (UpsertProxy now store p).1.length) (h2 : i < store.length),
      ((UpsertProxy now store p).1[i].id = store[i].id ∧
       (UpsertProxy now store p).1[i].host = store[i].host ∧
       (UpsertProxy now store p).1[i].port = store[i].port ∧
       (UpsertProxy now store p).1[i].anonymity = store[i].anonymity ∧
       (UpsertProxy now store p).1[i].https = store[i].https ∧
       (UpsertProxy now store p).1[i].status = store[i].status ∧
       (UpsertProxy now store p).1[i].responseTimeMs = store[i].responseTimeMs ∧
       (UpsertProxy now store p).1[i].failCount = store[i].failCount ∧
       (UpsertProxy now store p).1[i].firstSeenAt = store[i].firstSeenAt ∧
       (UpsertProxy now store p).1[i].lastCheckedAt = store[i].lastCheckedAt ∧
       (UpsertProxy now store p).1[i].lastHealthyAt = store[i].lastHealthyAt) ∧
      ((UpsertProxy now store p).1[i] = store[i] ∨
       ((UpsertProxy now store p).1[i].proxyType = p.ptype ∧
        (UpsertProxy now store p).1[i].country = some p.country)) := by
  obtain ⟨r, hr⟩ := Option.isSome_iff_exists.mp hconf
  have hu : (UpsertProxy now store p).1 =
      store.map (fun q =>
        if upsertMatches p q then { q with proxyType := p.ptype, country := some p.country }
        else q) := by
    unfold UpsertProxy
    rw [hr]
  constructor
  · rw [hu, List.length_map]
  · intro i h1 h2
    have hget : (UpsertProxy now store p).1[i] =
        (if upsertMatches p store[i] then
          { store[i] with proxyType := p.ptype, country := some p.country }
         else store[i]) := by
      have hq : (UpsertProxy now store p).1[i]? =
          some (if upsertMatches p store[i] then
            { store[i] with proxyType := p.ptype, country := some p.country }
           else store[i]) := by
        rw [hu, List.getElem?_map, List.getElem?_eq_getElem h2]
        rfl
      have hq2 := List.getElem?_eq_getElem h1
      rw [hq2] at hq
      exact Option.some.inj hq
    by_cases hm : upsertMatches p store[i] = true
    · rw [hget, if_pos hm]
      exact ⟨⟨rfl, rfl, rfl, rfl, rfl, rfl, rfl, rfl, rfl, rfl, rfl⟩, Or.inr ⟨rfl, rfl⟩⟩
    · rw [hget, if_neg hm]
      exact ⟨⟨rfl, rfl, rfl, rfl, rfl, rfl, rfl, rfl, rfl, rfl, rfl⟩, Or.inl rfl⟩

/-- Witness for C3 at a concrete store: upserting a rescrape of `recA`
(same host and port, new type and country) keeps the store's size. -/
theorem c3_upsert_preserves_health_witness :
    (UpsertProxy 100 [recA, recB]
        { host := "1.2.3.4", port := 8080, ptype := "socks5", country := "FR",
          lastSeen := 0 }).1.length = ([recA, recB] : Store).length :=
  (c3_upsert_preserves_health 100
    { host := "1.2.3.4", port := 8080, ptype := "socks5", country := "FR", lastSeen := 0 }
    [recA, recB] (by decide)).1

/-- The id of a row is untouched by a health update. -/
lemma applyHealthUpdate_id (now : Int) (res : CheckResult) (r : Proxies) :
    (applyHealthUpdate now res r).id = r.id := by
  unfold applyHealthUpdate
  split <;> rfl

/-- A batch of `UPDATE ... WHERE id = ?` acts on each position of the
store independently. -/
lemma applyHealthUpdates_getElem? (now : Int) (updates : List (Int × CheckResult)) :
    ∀ (store : Store) (i : Nat),
    (applyHealthUpdates now updates store)[i]? =
      (store[i]?).map (fun r => updates.foldl
        (fun r u => if r.id = u.1 then applyHealthUpdate now u.2 r else r) r) := by
  induction updates with
  | nil =>
      intro store i
      simp [applyHealthUpdates]
  | cons u us ih =>
      intro store i
      have h1 : applyHealthUpdates now (u :: us) store =
          applyHealthUpdates now us
            (store.map (fun r => if r.id = u.1 then applyHealthUpdate now u.2 r else r)) := rfl
      rw [h1, ih, List.getElem?_map]
      cases store[i]? <;> simp

/-- A batch of health updates preserves the number of rows. -/
lemma applyHealthUpdates_length (now : Int) (updates : List (Int × CheckResult)) :
    ∀ (store : Store), (applyHealthUpdates now updates store).length = store.length := by
  induction updates with
  | nil => intro store; rfl
  | cons u us ih =>
      intro store
      have h1 : applyHealthUpdates now (u :: us) store =
          applyHealthUpdates now us
            (store.map (fun r => if r.id = u.1 then applyHealthUpdate now u.2 r else r)) := rfl
      rw [h1, ih, List.length_map]

/-- A row whose id no update names is untouched by the per-row fold. -/
lemma elementFold_of_not_mem (now : Int) (updates : List (Int × CheckResult)) (r : Proxies)
    (hr : r.id ∉ updates.map Prod.fst) :
    updates.foldl (fun r u => if r.id = u.1 then applyHealthUpdate now u.2 r else r) r = r := by
  induction updates with
  | nil => rfl
  | cons u us ih =>
      have hne : r.id ≠ u.1 := fun hc => hr (by simp [hc])
      have hus : r.id ∉ us.map Prod.fst := fun hc => hr (by simp [hc])
      simp only [List.foldl_cons, if_neg hne]
      exact ih hus

/-- With pairwise-distinct update ids, the per-row fold applies exactly
the matching update to a matching row. -/
lemma elementFold_of_mem (now : Int) {updates : List (Int × CheckResult)}
    {u : Int × CheckResult} (hnd : (updates.map Prod.fst).Nodup) (hu : u ∈ updates)
    (r : Proxies) (hid : r.id = u.1) :
    updates.foldl (fun r u => if r.id = u.1 then applyHealthUpdate now u.2 r else r) r =
      applyHealthUpdate now u.2 r := by
  induction updates with
  | nil => cases hu
  | cons v vs ih =>
      simp only [List.map_cons, List.nodup_cons] at hnd
      rcases List.mem_cons.mp hu with huv | huvs
      · subst huv
        simp only [List.foldl_cons, if_pos hid]
        apply elementFold_of_not_mem
        rw [applyHealthUpdate_id, hid]
        exact hnd.1
      · have hne : r.id ≠ v.1 := by
          rw [hid]
          intro hc
          apply hnd.1
          rw [← hc]
          exact List.mem_map_of_mem Prod.fst huvs
        simp only [List.foldl_cons, if_neg hne]
        exact ih hnd.2 huvs

/-- C4.  On a committed batch (every statement accepted): a healthy
entry sets the row's status to "healthy", stamps `last_checked_at` and
`last_healthy_at` with the same `now` and zeroes `fail_count`; a
non-healthy entry sets the status to the failure kind's name, stamps
`last_checked_at`, increments `fail_count` by 1 and leaves
`last_healthy_at` unchanged; rows no entry names are untouched.  The
batch commits if and only if every statement is accepted — otherwise
the transaction rolls back and the store is unchanged (`none`). -/
theorem c4_batch_health_update (execOk : Int → Bool) (now : Int)
    (updates : List (Int × CheckResult)) (store : Store) (st2 : Store)
    (hnd : (updates.map Prod.fst).Nodup)
    (hok : BatchUpdateProxyHealth execOk now updates store = some st2) :
    st2.length = store.length ∧
    (∀ (i : Nat) (r : Proxies), store[i]? = some r → r.id ∉ updates.map Prod.fst →
      st2[i]? = some r) ∧
    (∀ u ∈ updates, ∀ (i : Nat) (r : Proxies), store[i]? = some r → r.id = u.1 →
      (u.2.status = ProxyStatus.statusHealthy →
        st2[i]? = some { r with
                         status := "healthy", lastCheckedAt := some now,
                         responseTimeMs := some u.2.responseTime,
                         lastHealthyAt := some now, failCount := 0 }) ∧
      (u.2.status ≠ ProxyStatus.statusHealthy →
        st2[i]? = some { r with
                         status := u.2.status.str, lastCheckedAt := some now,
                         responseTimeMs := some u.2.responseTime,
                         failCount := r.failCount + 1 })) ∧
    (∀ (updates2 : List (Int × CheckResult)) (store2 : Store),
      (BatchUpdateProxyHealth execOk now updates2 store2).isSome =
        updates2.all (fun u => execOk u.1)) := by
  have hlast : ∀ (updates2 : List (Int × CheckResult)) (store2 : Store),
      (BatchUpdateProxyHealth execOk now updates2 store2).isSome =
        updates2.all (fun u => execOk u.1) := by
    intro updates2 store2
    unfold BatchUpdateProxyHealth
    by_cases hemp : updates2.isEmpty = true
    · have : updates2 = [] := List.isEmpty_iff.mp hemp
      subst this
      simp
    · simp only [hemp]
      by_cases hall : updates2.all (fun u => execOk u.1) = true
      · simp [hall]
      · simp only [Bool.not_eq_true] at hall
        simp [hall]
  have hupd : st2 = applyHealthUpdates now updates store := by
    unfold BatchUpdateProxyHealth at hok
    by_cases hemp : updates.isEmpty = true
    · rw [if_pos hemp] at hok
      have h0 : updates = [] := List.isEmpty_iff.mp hemp
      subst h0
      exact (Option.some.inj hok).symm
    · rw [if_neg hemp] at hok
      by_cases hall : updates.all (fun u => execOk u.1) = true
      · rw [if_pos hall] at hok
        exact (Option.some.inj hok).symm
      · rw [if_neg hall] at hok
        cases hok
  subst hupd
  refine ⟨applyHealthUpdates_length now updates store, ?_, ?_, hlast⟩
  · intro i r hir hnotin
    rw [applyHealthUpdates_getElem?, hir]
    simp only [Option.map_some']
    rw [elementFold_of_not_mem now updates r hnotin]
  · intro u hu i r hir hrid
    constructor
    · intro hh
      rw [applyHealthUpdates_getElem?, hir]
      simp only [Option.map_some', Option.some.injEq]
      rw [elementFold_of_mem now hnd hu r hrid]
      simp [applyHealthUpdate, hh, ProxyStatus.str]
    · intro hh
      rw [applyHealthUpdates_getElem?, hir]
      simp only [Option.map_some', Option.some.injEq]
      rw [elementFold_of_mem now hnd hu r hrid]
      simp [applyHealthUpdate, hh]

/-- Witness for C4 at a concrete two-entry batch: the healthy entry for
`recA` rewrites its row as stated. -/
theorem c4_batch_health_update_witness :
    (applyHealthUpdates 100 [(1, resH), (2, resT)] [recA, recB])[0]? =
      some { recA with
             status := "healthy", lastCheckedAt := some 100,
             responseTimeMs := some 42, lastHealthyAt := some 100, failCount := 0 } :=
  ((c4_batch_health_update (fun _ => true) 100 [(1, resH), (2, resT)] [recA, recB]
      (applyHealthUpdates 100 [(1, resH), (2, resT)] [recA, recB])
      (by decide) (by decide)).2.2.1 (1, resH) (by decide) 0 recA (by decide)
      (by decide)).1 (by decide)

/-- C10.  The cleanup fired by a refresh cycle is independent of the
configured database `max_age` (the manager is wired without it): it
always uses the fixed 24-hour age, and it deletes exactly the rows
whose `last_healthy_at` is `NULL` or older than 24 hours before now —
a row survives iff its `last_healthy_at` is set and at least
`now - 24h`. -/
theorem c10_cleanup_fixed_24h :
    (∀ (cfg cfg2 : DatabaseConfig) (probe : Proxy → ProxyStatus × Int) (now interval : Int)
      (scraped : List Proxy) (store : Store) (s : DBManagerState),
      mainRefresh cfg probe now interval scraped store s =
        mainRefresh cfg2 probe now interval scraped store s) ∧
    (∀ (cfg : DatabaseConfig) (probe : Proxy → ProxyStatus × Int) (now interval : Int)
      (scraped : List Proxy) (store : Store) (s : DBManagerState),
      (mainRefresh cfg probe now interval scraped store s).1 =
        CleanupOldProxies now hours24
          (CheckProxiesWithCaching probe now interval scraped store).1) ∧
    hours24 = 86400 ∧
    (∀ (now : Int) (store : Store) (r : Proxies),
      r ∈ CleanupOldProxies now hours24 store ↔
        r ∈ store ∧ ∃ t, r.lastHealthyAt = some t ∧ now - hours24 ≤ t) := by
  refine ⟨fun _ _ _ _ _ _ _ _ => rfl, fun _ _ _ _ _ _ _ => rfl, rfl, ?_⟩
  intro now store r
  unfold CleanupOldProxies
  rw [List.mem_filter]
  constructor
  · rintro ⟨hmem, hcond⟩
    refine ⟨hmem, ?_⟩
    cases hlh : r.lastHealthyAt with
    | none => rw [hlh] at hcond; cases hcond
    | some t =>
        rw [hlh] at hcond
        exact ⟨t, rfl, of_decide_eq_true hcond⟩
  · rintro ⟨hmem, t, hlh, hle⟩
    refine ⟨hmem, ?_⟩
    rw [hlh]
    exact decide_eq_true hle

/-! Helper lemmas about the cached checker. -/

/-- The checker's row-to-proxy conversion preserves the address key. -/
lemma toScraperProxy_address (ls : Int) (r : Proxies) :
    (toScraperProxy ls r).address = r.address := rfl

/-- The deduplicated scrape list is a subset of the scrape list. -/
lemma dedup_mem {ps : List Proxy} {q : Proxy} (h : q ∈ dedupByAddress ps) : q ∈ ps := by
  induction ps with
  | nil => cases h
  | cons p ps ih =>
      unfold dedupByAddress at h
      by_cases ha : ps.any (fun q2 => q2.address == p.address) = true
      · rw [if_pos ha] at h
        exact List.mem_cons_of_mem p (ih h)
      · rw [if_neg ha] at h
        rcases List.mem_cons.mp h with h1 | h2
        · exact h1 ▸ List.mem_cons_self p ps
        · exact List.mem_cons_of_mem p (ih h2)

/-- Keying by address deduplicates: the addresses of the `proxyByAddr`
values are pairwise distinct. -/
lemma dedup_addr_nodup (ps : List Proxy) :
    ((dedupByAddress ps).map Proxy.address).Nodup := by
  induction ps with
  | nil => simp [dedupByAddress]
  | cons p ps ih =>
      unfold dedupByAddress
      by_cases ha : ps.any (fun q2 => q2.address == p.address) = true
      · rw [if_pos ha]; exact ih
      · rw [if_neg ha]
        simp only [List.map_cons, List.nodup_cons]
        refine ⟨?_, ih⟩
        intro hc
        rcases List.mem_map.mp hc with ⟨q, hq, haddr⟩
        have hqin : q ∈ ps := dedup_mem hq
        have hany : ps.any (fun q2 => q2.address == p.address) = true := by
          rw [List.any_eq_true]
          exact ⟨q, hqin, by simp [haddr]⟩
        exact ha hany

/-- An address lookup returns a row with that address. -/
lemma GetProxyByAddress_addr {store : Store} {a : String} {r : Proxies}
    (h : GetProxyByAddress store a = some r) : r.address = a := by
  have := List.find?_some h
  simpa using this

/-- An address lookup returns a row of the store. -/
lemma GetProxyByAddress_mem {store : Store} {a : String} {r : Proxies}
    (h : GetProxyByAddress store a = some r) : r ∈ store :=
  List.mem_of_find?_eq_some h

/-- The row an upsert returns carries the upserted proxy's address. -/
lemma UpsertProxy_ret_addr (now : Int) (store : Store) (p : Proxy) :
    (UpsertProxy now store p).2.address = p.address := by
  unfold UpsertProxy
  cases hf : store.find? (upsertMatches p) with
  | none => rfl
  | some r =>
      have hm := List.find?_some hf
      unfold upsertMatches at hm
      have hm2 : r.host = p.host ∧ r.port = p.port := by simpa using hm
      simp [Proxies.address, Proxy.address, hm2.1, hm2.2]

/-- The addresses of the rows returned by the upsert loop are the
addresses of the upserted proxies, in order. -/
lemma upsertNew_addresses (now : Int) (ps : List Proxy) : ∀ store : Store,
    ((upsertNew now store ps).2).map Proxies.address = ps.map Proxy.address := by
  induction ps with
  | nil => intro store; rfl
  | cons p ps ih =>
      intro store
      simp only [upsertNew, List.map_cons]
      rw [UpsertProxy_ret_addr, ih]

/-- The addresses of the existing rows the checker collects are the
addresses of the scraped proxies found in the store, in order. -/
lemma exRecs_map_addr (store : Store) (sd : List Proxy) :
    (sd.filterMap (fun p => GetProxyByAddress store p.address)).map Proxies.address =
      (sd.filter (fun p => (GetProxyByAddress store p.address).isSome)).map Proxy.address := by
  induction sd with
  | nil => rfl
  | cons p sd ih =>
      simp only [List.filterMap_cons, List.filter_cons]
      cases hf : GetProxyByAddress store p.address with
      | none => simpa using ih
      | some r =>
          simp only [Option.isSome_some, if_true, List.map_cons]
          rw [GetProxyByAddress_addr hf, ih]

/-- `dbProxiesPhase`, written out (the lets of the definition). -/
lemma dbProxiesPhase_eq (now : Int) (scraped : List Proxy) (store : Store) :
    dbProxiesPhase now scraped store =
      ((upsertNew now store ((dedupByAddress scraped).filter
          (fun p => (GetProxyByAddress store p.address).isNone))).1,
       (dedupByAddress scraped).filterMap (fun p => GetProxyByAddress store p.address) ++
       (upsertNew now store ((dedupByAddress scraped).filter
          (fun p => (GetProxyByAddress store p.address).isNone))).2) := rfl

/-- The `dbProxies` list of one checker pass has pairwise-distinct
addresses. -/
lemma dbProxiesPhase_addr_nodup (now : Int) (scraped : List Proxy) (store : Store) :
    addrNodup (dbProxiesPhase now scraped store).2 := by
  unfold addrNodup
  rw [dbProxiesPhase_eq]
  rw [List.map_append, exRecs_map_addr, upsertNew_addresses]
  rw [← List.map_append]
  have h2 : ((dedupByAddress scraped).filter
        (fun p => !(GetProxyByAddress store p.address).isSome)) =
      ((dedupByAddress scraped).filter
        (fun p => (GetProxyByAddress store p.address).isNone)) := by
    apply List.filter_congr
    intro p _
    cases GetProxyByAddress store p.address <;> rfl
  have hperm : List.Perm
      ((dedupByAddress scraped).filter (fun p => (GetProxyByAddress store p.address).isSome) ++
        (dedupByAddress scraped).filter (fun p => (GetProxyByAddress store p.address).isNone))
      (dedupByAddress scraped) := by
    have h1 := List.filter_append_perm
      (fun p => (GetProxyByAddress store p.address).isSome) (dedupByAddress scraped)
    rw [h2] at h1
    exact h1
  exact (hperm.map Proxy.address).nodup_iff.mpr (dedup_addr_nodup scraped)

/-- `CheckProxiesWithCaching`, written out (the lets of the definition). -/
lemma CheckProxiesWithCaching_eq (probe : Proxy → ProxyStatus × Int) (now interval : Int)
    (scraped : List Proxy) (store : Store) :
    CheckProxiesWithCaching probe now interval scraped store =
      (if scraped.isEmpty then (store, [])
       else if ((dbProxiesPhase now scraped store).2.filter
          (needsCheck (now - interval))).isEmpty then
        ((dbProxiesPhase now scraped store).1,
         (dbProxiesPhase now scraped store).2.map cachedResult)
       else
        (applyHealthUpdates now
            (((dbProxiesPhase now scraped store).2.filter (needsCheck (now - interval))).map
              (fun r => (r.id, freshResult probe now r)))
            (dbProxiesPhase now scraped store).1,
         getAllResults (dbProxiesPhase now scraped store).2
            (((dbProxiesPhase now scraped store).2.filter (needsCheck (now - interval))).map
              (freshResult probe now)))) := rfl

/-- C6.  A record whose `last_checked_at` is set and within
`check_interval` of now is not scheduled for probing and its cached
result (its stored status, mapped verbatim through the status
switch) appears in the returned results; a record whose
`last_checked_at` is `NULL` or older than `now - check_interval` is
scheduled.  The status switch is the identity on every stored status
string. -/
theorem c6_checker_freshness (probe : Proxy → ProxyStatus × Int) (now interval : Int)
    (scraped : List Proxy) (store : Store) :
    (∀ (rec : Proxies) (t : Int), rec ∈ (dbProxiesPhase now scraped store).2 →
      rec.lastCheckedAt = some t → now - interval ≤ t →
      rec ∉ scheduledRecs now interval scraped store ∧
      cachedResult rec ∈ (CheckProxiesWithCaching probe now interval scraped store).2) ∧
    (∀ rec : Proxies, rec ∈ (dbProxiesPhase now scraped store).2 →
      (rec.lastCheckedAt = none ∨ ∃ t, rec.lastCheckedAt = some t ∧ t < now - interval) →
      rec ∈ scheduledRecs now interval scraped store) ∧
    (∀ s : String,
      s ∈ (["healthy", "unhealthy", "timeout", "error", "unknown"] : List String) →
      (statusOfString s).str = s) := by
  refine ⟨?_, ?_, by decide⟩
  · intro rec t hmem hlc hle
    have hfresh : needsCheck (now - interval) rec = false := by
      unfold needsCheck
      rw [hlc]
      simp only [decide_eq_false_iff_not]
      omega
    have hnots : rec ∉ scheduledRecs now interval scraped store := by
      intro hc
      unfold scheduledRecs at hc
      have hh := (List.mem_filter.mp hc).2
      rw [hfresh] at hh
      cases hh
    refine ⟨hnots, ?_⟩
    rw [CheckProxiesWithCaching_eq]
    by_cases hscr : scraped.isEmpty = true
    · have h0 : scraped = [] := List.isEmpty_iff.mp hscr
      subst h0
      have hnil : (dbProxiesPhase now ([] : List Proxy) store).2 = [] := rfl
      rw [hnil] at hmem
      cases hmem
    · rw [if_neg hscr]
      by_cases hsch : ((dbProxiesPhase now scraped store).2.filter
          (needsCheck (now - interval))).isEmpty = true
      · rw [if_pos hsch]
        exact List.mem_map_of_mem cachedResult hmem
      · rw [if_neg hsch]
        have hnd := dbProxiesPhase_addr_nodup now scraped store
        have hfind : (((dbProxiesPhase now scraped store).2.filter
              (needsCheck (now - interval))).map (freshResult probe now)).find?
            (fun fr => fr.proxy.address == rec.address) = none := by
          rw [List.find?_eq_none]
          intro fr hfr
          rcases List.mem_map.mp hfr with ⟨r2, hr2, hfr2⟩
          subst hfr2
          intro hbeq
          have haddr : r2.address = rec.address := by
            have ht : (freshResult probe now r2).proxy.address = r2.address :=
              toScraperProxy_address now r2
            rw [ht] at hbeq
            exact eq_of_beq hbeq
          have hr2mem : r2 ∈ (dbProxiesPhase now scraped store).2 :=
            List.mem_of_mem_filter hr2
          have hr2rec : r2 = rec :=
            List.inj_on_of_nodup_map hnd hr2mem hmem haddr
          subst hr2rec
          have hh := (List.mem_filter.mp hr2).2
          rw [hfresh] at hh
          cases hh
        unfold getAllResults
        apply List.mem_map.mpr
        refine ⟨rec, hmem, ?_⟩
        rw [hfind]
  · intro rec hmem hold
    unfold scheduledRecs
    apply List.mem_filter.mpr
    refine ⟨hmem, ?_⟩
    unfold needsCheck
    rcases hold with hnone | ⟨t, hsome, hlt⟩
    · rw [hnone]
    · rw [hsome]
      exact decide_eq_true hlt

/-- Witness for C6 at a concrete pass: `recA` (checked at 95, now 100,
interval 10) is answered from the cache. -/
theorem c6_checker_freshness_witness :
    cachedResult recA ∈ (CheckProxiesWithCaching probeAllHealthy 100 10 [pA] [recA]).2 :=
  ((c6_checker_freshness probeAllHealthy 100 10 [pA] [recA]).1 recA 95 (by decide)
    (by decide) (by decide)).2

/-- An upsert of a proxy with a different address keeps a row in the
store (the conflict update touches only the conflicting row). -/
lemma UpsertProxy_preserves (now : Int) (store : Store) (p : Proxy) {r : Proxies}
    (hr : r ∈ store) (hne : r.address ≠ p.address) : r ∈ (UpsertProxy now store p).1 := by
  unfold UpsertProxy
  cases hf : store.find? (upsertMatches p) with
  | none => exact List.mem_append_left _ hr
  | some r2 =>
      have hmf : upsertMatches p r = false := by
        cases hmb : upsertMatches p r with
        | false => rfl
        | true =>
            exfalso
            unfold upsertMatches at hmb
            have hm2 : r.host = p.host ∧ r.port = p.port := by simpa using hmb
            apply hne
            simp [Proxies.address, Proxy.address, hm2.1, hm2.2]
      apply List.mem_map.mpr
      exact ⟨r, hr, by simp [hmf]⟩

/-- The upsert loop over proxies with other addresses keeps a row. -/
lemma upsertNew_preserves (now : Int) (ps : List Proxy) : ∀ (store : Store) {r : Proxies},
    r ∈ store → (∀ p ∈ ps, r.address ≠ p.address) → r ∈ (upsertNew now store ps).1 := by
  induction ps with
  | nil => intro store r hr _; exact hr
  | cons p ps ih =>
      intro store r hr hne
      simp only [upsertNew]
      apply ih
      · exact UpsertProxy_preserves now store p hr (hne p (List.mem_cons_self p ps))
      · intro q hq
        exact hne q (List.mem_cons_of_mem p hq)

/-- The checker's upsert phase only inserts proxies whose addresses are
absent from the store; every existing row survives it unchanged. -/
lemma dbProxiesPhase_store_preserves (now : Int) (scraped : List Proxy) (store : Store)
    {r : Proxies} (hr : r ∈ store) : r ∈ (dbProxiesPhase now scraped store).1 := by
  rw [dbProxiesPhase_eq]
  apply upsertNew_preserves now _ store hr
  intro p hp
  have hnone : GetProxyByAddress store p.address = none := by
    have hh := (List.mem_filter.mp hp).2
    cases hg : GetProxyByAddress store p.address with
    | none => rfl
    | some r2 => rw [hg] at hh; cases hh
  intro hceq
  unfold GetProxyByAddress at hnone
  have hnot := List.find?_eq_none.mp hnone r hr
  exact hnot (by simp [hceq])

/-- A row whose id no update names survives a batch of health updates
unchanged. -/
lemma applyHealthUpdates_mem_preserves (now : Int) (updates : List (Int × CheckResult))
    (store : Store) {r : Proxies} (hr : r ∈ store)
    (hnotin : r.id ∉ updates.map Prod.fst) : r ∈ applyHealthUpdates now updates store := by
  obtain ⟨i, hi⟩ := List.get_of_mem hr
  have hq : store[i.1]? = some r := by
    rw [List.getElem?_eq_getElem i.2, ← hi]
    rfl
  have hg := applyHealthUpdates_getElem? now updates store i.1
  rw [hq] at hg
  simp only [Option.map_some'] at hg
  rw [elementFold_of_not_mem now updates r hnotin] at hg
  exact List.getElem?_mem hg

/-- Sorted insertion permutes consing. -/
lemma insertSorted_perm (le : Proxies → Proxies → Bool) (x : Proxies) :
    ∀ l : List Proxies, List.Perm (insertSorted le x l) (x :: l) := by
  intro l
  induction l with
  | nil => exact List.Perm.refl _
  | cons y ys ih =>
      unfold insertSorted
      by_cases hle : le x y = true
      · rw [if_pos hle]
      · rw [if_neg hle]
        exact (List.Perm.cons y ih).trans (List.Perm.swap x y ys)

/-- The `ORDER BY` sort is a permutation. -/
lemma sortByLe_perm (le : Proxies → Proxies → Bool) (l : List Proxies) :
    List.Perm (sortByLe le l) l := by
  induction l with
  | nil => exact List.Perm.refl _
  | cons x xs ih =>
      unfold sortByLe
      simp only [List.foldr_cons]
      have h1 := insertSorted_perm le x (xs.foldr (insertSorted le) [])
      have h2 : List.Perm (x :: xs.foldr (insertSorted le) []) (x :: xs) :=
        List.Perm.cons x ih
      exact h1.trans h2

/-- A healthy row of the store is listed by `GetHealthyProxies`. -/
lemma GetHealthyProxies_mem {store : Store} {r : Proxies} (hr : r ∈ store)
    (hst : r.status = "healthy") : r ∈ GetHealthyProxies store := by
  unfold GetHealthyProxies
  apply (sortByLe_perm _ _).mem_iff.mpr
  apply List.mem_filter.mpr
  exact ⟨hr, by simp [hst]⟩

/-- C5.  In a refresh cycle whose cache was empty before the swap and
non-empty after it, the manager reloads the store's healthy rows into
the cache, so every proxy that was healthy in the store before the
cycle and was not re-probed in this cycle (its id is named by no
scheduled record) is present in the cache afterwards. -/
theorem c5_refresh_reload (probe : Proxy → ProxyStatus × Int) (now interval : Int)
    (scraped : List Proxy) (store : Store) (s : DBManagerState) (rec : Proxies)
    (hemp : s.cachedProxies = [])
    (hne : FilterHealthyProxies
      (CheckProxiesWithCaching probe now interval scraped store).2 ≠ [])
    (hrec : rec ∈ store) (hst : rec.status = "healthy")
    (hnp : rec.id ∉ (scheduledRecs now interval scraped store).map (fun r => r.id)) :
    dbToProxyH rec ∈ ((RefreshProxies probe now interval scraped store s).2).cachedProxies := by
  have hcond : s.cachedProxies.length = 0 ∧
      0 < (FilterHealthyProxies
        (CheckProxiesWithCaching probe now interval scraped store).2).length := by
    constructor
    · rw [hemp]; rfl
    · exact List.length_pos.mpr hne
  have hrfl : (RefreshProxies probe now interval scraped store s).2 =
      (if s.cachedProxies.length = 0 ∧
          0 < (FilterHealthyProxies
            (CheckProxiesWithCaching probe now interval scraped store).2).length then
        loadHealthyProxies (CheckProxiesWithCaching probe now interval scraped store).1
       else
        ({ cachedProxies := FilterHealthyProxies
              (CheckProxiesWithCaching probe now interval scraped store).2,
           currentIndex := 0 } : DBManagerState)) := rfl
  have hs2 : (RefreshProxies probe now interval scraped store s).2 =
      loadHealthyProxies (CheckProxiesWithCaching probe now interval scraped store).1 := by
    rw [hrfl, if_pos hcond]
  have hrecst : rec ∈ (CheckProxiesWithCaching probe now interval scraped store).1 := by
    rw [CheckProxiesWithCaching_eq]
    by_cases hscr : scraped.isEmpty = true
    · rw [if_pos hscr]; exact hrec
    · rw [if_neg hscr]
      by_cases hsch : ((dbProxiesPhase now scraped store).2.filter
          (needsCheck (now - interval))).isEmpty = true
      · rw [if_pos hsch]
        exact dbProxiesPhase_store_preserves now scraped store hrec
      · rw [if_neg hsch]
        apply applyHealthUpdates_mem_preserves
        · exact dbProxiesPhase_store_preserves now scraped store hrec
        · intro hc
          apply hnp
          rw [List.map_map] at hc
          unfold scheduledRecs
          simpa using hc
  rw [hs2]
  unfold loadHealthyProxies GetHealthyProxiesFromDB
  exact List.mem_map_of_mem dbToProxyH (GetHealthyProxies_mem hrecst hst)

/-- Witness for C5 at a concrete cycle: the cache starts empty, the
scrape brings only the new proxy `pB` (probed healthy), and the
already-healthy, un-probed row `recA` is still in the cache after the
refresh. -/
theorem c5_refresh_reload_witness :
    dbToProxyH recA ∈
      ((RefreshProxies probeAllHealthy 100 10 [pB] [recA]
          { cachedProxies := [], currentIndex := 0 }).2).cachedProxies :=
  c5_refresh_reload probeAllHealthy 100 10 [pB] [recA]
    { cachedProxies := [], currentIndex := 0 } recA rfl (by decide) (by decide)
    (by decide) (by decide)

end Aproxy
